import Mathlib

/-!
Verification model of `src/star_visualizer.py`.

Conventions of the shallow embedding:
* Python floats are modelled as exact rationals (ℚ).
* `math.cos` and `math.sin` are abstracted as function parameters
  `cosf sinf : ℚ → ℚ` (their values never matter to the claims below,
  which hold for every choice).
* `math.pi` and `math.sqrt(WIDTH**2 + HEIGHT**2)` are the exact rational
  values of the corresponding IEEE-754 doubles.
* The non-seeded `random` module is modelled as an injected stream
  `r : ℕ → ℚ` of `random.random()` outputs (each in `[0,1)`), consumed in
  order through an explicit cursor `k : ℕ`; `random.uniform a b` is
  `a + (b - a) * random()`, exactly as in CPython.
* Python `int(x)` (truncation toward zero) is `pyInt`; Python list
  indexing (including negative indices and `IndexError`) is `pyListGet`
  returning an `Option`.
-/

namespace StarViz

/-- Canvas width, from the source header. -/
def WIDTH : ℚ := 1920

/-- Canvas height, from the source header. -/
def HEIGHT : ℚ := 1080

/-- Frames per second, from the source header. -/
def FPS : ℚ := 30

/-- Beats per minute, from the source header. -/
def BPM : ℚ := 85

/-- `BEAT_DURATION = 60 / BPM`, from the source header. -/
def BEAT_DURATION : ℚ := 60 / BPM

/-- Stars per group, from the source header. -/
def STARS_PER_GROUP : ℕ := 7

/-- Base radial speed, from the source header. -/
def BASE_SPEED : ℚ := 3

/-- Maximal radial speed, from the source header. -/
def MAX_SPEED : ℚ := 8

/-- `SCREEN_DIAGONAL = math.sqrt(WIDTH**2 + HEIGHT**2)`: the exact value of
the IEEE double `math.sqrt(4852800)`. -/
def SCREEN_DIAGONAL : ℚ := 4844244096833219 / 2199023255552

/-- The exact rational value of the IEEE double `math.pi`. -/
def mathPi : ℚ := 884279719003555 / 281474976710656

/-- Python `int(x)` on a real number: truncation toward zero. -/
def pyInt (q : ℚ) : ℤ := if 0 ≤ q then ⌊q⌋ else ⌈q⌉

/-- Python list indexing `l[i]`: non-negative indices from the front,
negative indices from the back, `none` models `IndexError`. -/
def pyListGet (l : List ℚ) (i : ℤ) : Option ℚ :=
  if 0 ≤ i then l[i.toNat]?
  else if i.natAbs ≤ l.length then l[l.length - i.natAbs]?
  else none

/-- A stream of `random.random()` outputs. -/
abbrev RandSource := ℕ → ℚ

/-- `random.uniform(a, b)` applied to one `random()` draw `x`:
CPython computes `a + (b - a) * x`. -/
def uniformVal (a b x : ℚ) : ℚ := a + (b - a) * x

/-- A star of a group: the dict
`{'angle_offset': …, 'dist_offset': …, 'pulse_phase': …}`. -/
structure Star where
  angle_offset : ℚ
  dist_offset : ℚ
  pulse_phase : ℚ
  deriving DecidableEq

/-- A connection of a group: the dict
`{'stars': (i, j), 'alpha': …, 'active': …}`. -/
structure Connection where
  stars : ℕ × ℕ
  alpha : ℚ
  active : Bool
  deriving DecidableEq

/-- The mutable state of a `StarGroup` object. -/
structure StarGroup where
  id : ℕ
  angle : ℚ
  speed : ℚ
  distance : ℚ
  stars : List Star
  connections : List Connection
  deriving DecidableEq

/-- The star-creation loop of `reset`: `n` iterations, each drawing
`angle_offset = uniform(-1, 1)`, `dist_offset = uniform(1, 2)`,
`pulse_phase = uniform(0, 2π)` in that order. Returns the stars in
creation order together with the advanced cursor. -/
def mkStars (r : RandSource) : ℕ → ℕ → List Star × ℕ
  | k, 0 => ([], k)
  | k, n + 1 =>
    let s : Star :=
      { angle_offset := uniformVal (-1) 1 (r k)
        dist_offset := uniformVal 1 2 (r (k + 1))
        pulse_phase := uniformVal 0 (2 * mathPi) (r (k + 2)) }
    let rest := mkStars r (k + 3) n
    (s :: rest.1, rest.2)

/-- The unordered index pairs `(i, j)` with `i < j < n`, in the order the
double loop `for i in range(n): for j in range(i+1, n)` visits them. -/
def pairList (n : ℕ) : List (ℕ × ℕ) :=
  (List.range n).flatMap fun i => (List.range' (i + 1) (n - (i + 1))).map fun j => (i, j)

/-- The connection-creation loop of `reset`: one `random()` coin per pair,
the pair is kept when the coin is `< 0.35`; each kept connection starts
with `alpha = 0` and `active = False`. -/
def mkConns (r : RandSource) : ℕ → List (ℕ × ℕ) → List Connection × ℕ
  | k, [] => ([], k)
  | k, p :: rest =>
    let tail := mkConns r (k + 1) rest
    if r k < 7 / 20 then
      ({ stars := p, alpha := 0, active := false } :: tail.1, tail.2)
    else
      (tail.1, tail.2)

/-- `StarGroup.reset`: draws a new `angle = uniform(0, 2π)` and
`distance = uniform(0, 200)`, restores `speed = BASE_SPEED`, regenerates
the star list and the connection list. Only `id` survives. -/
def StarGroup.reset (g : StarGroup) (r : RandSource) (k : ℕ) : StarGroup × ℕ :=
  let angle := uniformVal 0 (2 * mathPi) (r k)
  let distance := uniformVal 0 200 (r (k + 1))
  let starsK := mkStars r (k + 2) STARS_PER_GROUP
  let connsK := mkConns r starsK.2 (pairList starsK.1.length)
  ({ id := g.id, angle := angle, speed := BASE_SPEED, distance := distance
     stars := starsK.1, connections := connsK.1 }, connsK.2)

/-- `StarGroup.__init__`: draws `angle = uniform(0, 2π)` and
`distance = uniform(0, 200)`, sets `speed = BASE_SPEED`, then calls
`reset()`, which overwrites everything but `id`. -/
def StarGroup.init (group_id : ℕ) (r : RandSource) (k : ℕ) : StarGroup × ℕ :=
  let g0 : StarGroup :=
    { id := group_id, stars := [], connections := []
      angle := uniformVal 0 (2 * mathPi) (r k)
      speed := BASE_SPEED
      distance := uniformVal 0 200 (r (k + 1)) }
  StarGroup.reset g0 r (k + 2)

/-- `alpha_change = 255 * BPM / (60 * FPS)`, the per-frame opacity delta
computed inside `update`. -/
def alpha_change : ℚ := 255 * BPM / (60 * FPS)

/-- The beat-toggle part of the connection loop body of `update`:
even beat activates an inactive connection (alpha restarted at 0), odd
beat deactivates an active one. -/
def connBeat (beat_index : ℤ) (conn : Connection) : Connection :=
  if beat_index % 2 = 0 ∧ ¬conn.active then
    { conn with active := true, alpha := 0 }
  else if beat_index % 2 = 1 ∧ conn.active then
    { conn with active := false }
  else conn

/-- The opacity-ramp part of the connection loop body of `update`. -/
def connRamp (conn : Connection) : Connection :=
  if conn.active then { conn with alpha := min 255 (conn.alpha + alpha_change) }
  else { conn with alpha := max 0 (conn.alpha - alpha_change) }

/-- One full iteration of the connection loop of `update`. -/
def connStep (beat_index : ℤ) (conn : Connection) : Connection :=
  connRamp (connBeat beat_index conn)

/-- The boundary test of `update`: the center is outside the canvas
expanded by a 100-pixel margin on every side.  This is the code's
condition verbatim. -/
def outOfBounds (cx cy : ℚ) : Prop :=
  cx < -100 ∨ cx > WIDTH + 100 ∨ cy < -100 ∨ cy > HEIGHT + 100

instance (cx cy : ℚ) : Decidable (outOfBounds cx cy) := by
  unfold outOfBounds; infer_instance

/-- The motion part of `update` (lines 91–96): the new speed from the
cubic ease on `distance_ratio = distance / SCREEN_DIAGONAL`, then
`distance += speed`. -/
def advance (g : StarGroup) : StarGroup :=
  let dr := g.distance / SCREEN_DIAGONAL
  let speed := BASE_SPEED + (MAX_SPEED - BASE_SPEED) * dr ^ 3
  { g with speed := speed, distance := g.distance + speed }

/-- `center_x = WIDTH/2 + math.cos(angle) * distance` (line 99). -/
def centerX (cosf : ℚ → ℚ) (g : StarGroup) : ℚ :=
  WIDTH / 2 + cosf g.angle * g.distance

/-- `center_y = HEIGHT/2 + math.sin(angle) * distance` (line 100). -/
def centerY (sinf : ℚ → ℚ) (g : StarGroup) : ℚ :=
  HEIGHT / 2 + sinf g.angle * g.distance

/-- `StarGroup.update(time, vocal_energy)`: advance speed and distance,
reset when the computed center leaves the expanded canvas, otherwise run
the beat/opacity loop over the connections.  `cosf`/`sinf` abstract
`math.cos`/`math.sin`. -/
def StarGroup.update (cosf sinf : ℚ → ℚ) (g : StarGroup) (time vocal_energy : ℚ)
    (r : RandSource) (k : ℕ) : StarGroup × ℕ :=
  let g1 := advance g
  if outOfBounds (centerX cosf g1) (centerY sinf g1) then
    StarGroup.reset g1 r k
  else
    let beat_index := pyInt (time / BEAT_DURATION)
    ({ g1 with connections := g1.connections.map (connStep beat_index) }, k)

/-- One externally triggered mutation of a group: an `update(t, e)` call
(as issued by `create_frame`) or a bare `reset()` call. -/
inductive Op where
  | update (t e : ℚ)
  | reset

/-- Apply one operation to a group state and random cursor. -/
def applyOp (cosf sinf : ℚ → ℚ) (r : RandSource) (s : StarGroup × ℕ) : Op → StarGroup × ℕ
  | .update t e => StarGroup.update cosf sinf s.1 t e r s.2
  | .reset => StarGroup.reset s.1 r s.2

/-- Apply a sequence of operations in order. -/
def runOps (cosf sinf : ℚ → ℚ) (r : RandSource) : StarGroup × ℕ → List Op → StarGroup × ℕ
  | s, [] => s
  | s, op :: ops => runOps cosf sinf r (applyOp cosf sinf r s op) ops

/-- Every connection's opacity lies in `[0, 255]`. -/
def alphaInv (g : StarGroup) : Prop :=
  ∀ c ∈ g.connections, 0 ≤ c.alpha ∧ c.alpha ≤ 255

/-- Every connection's star index pair `(i, j)` satisfies
`i < j < g.stars.length`. -/
def connInv (g : StarGroup) : Prop :=
  ∀ c ∈ g.connections, c.stars.1 < c.stars.2 ∧ c.stars.2 < g.stars.length

/-- Modelled from the spec's words, for comparison with the code's
`energy_idx`: the clamped index `clamp(floor(t * N / D), 0, N - 1)`. -/
def specClampIdx (t : ℚ) (N : ℕ) (D : ℚ) : ℤ :=
  max 0 (min ((N : ℤ) - 1) ⌊t * N / D⌋)

/-- Modelled from the spec's words, for comparison with the code's
boundary test: membership in the canvas rectangle expanded by a
100-pixel margin on every side. -/
def inExpandedRect (cx cy : ℚ) : Prop :=
  -100 ≤ cx ∧ cx ≤ WIDTH + 100 ∧ -100 ≤ cy ∧ cy ≤ HEIGHT + 100

/-- The energy lookup of `create_frame` (lines 135–140):
`energy_idx = min(total_frames - 1, int(t * total_frames / duration))`,
then `vocal_energy[energy_idx] if vocal_energy else 0`; `none` models a
raised `IndexError`. -/
def currentEnergy (t : ℚ) (vocal_energy : List ℚ) (total_frames : ℕ) (duration : ℚ) :
    Option ℚ :=
  if 0 < total_frames then
    let energy_idx : ℤ := min ((total_frames : ℤ) - 1) (pyInt (t * total_frames / duration))
    if vocal_energy = [] then some 0 else pyListGet vocal_energy energy_idx
  else some 0

/-! ### General lemmas about the model -/

theorem mkStars_snd (r : RandSource) (n : ℕ) : ∀ k, (mkStars r k n).2 = k + 3 * n := by
  induction n with
  | zero => intro k; simp [mkStars]
  | succ n ih =>
    intro k
    show (mkStars r (k + 3) n).2 = _
    rw [ih]
    omega

theorem mkStars_len (r : RandSource) (n : ℕ) : ∀ k, (mkStars r k n).1.length = n := by
  induction n with
  | zero => intro k; simp [mkStars]
  | succ n ih =>
    intro k
    show ((_ : Star) :: (mkStars r (k + 3) n).1).length = _
    rw [List.length_cons, ih]

theorem mkConns_snd (r : RandSource) (ps : List (ℕ × ℕ)) :
    ∀ k, (mkConns r k ps).2 = k + ps.length := by
  induction ps with
  | nil => intro k; simp [mkConns]
  | cons p rest ih =>
    intro k
    show (if r k < 7 / 20 then _ else ((mkConns r (k + 1) rest).1, (mkConns r (k + 1) rest).2)).2
      = k + (rest.length + 1)
    split <;> simp [ih] <;> omega

theorem mkConns_mem (r : RandSource) (ps : List (ℕ × ℕ)) :
    ∀ k, ∀ c ∈ (mkConns r k ps).1, c.alpha = 0 ∧ c.active = false ∧ c.stars ∈ ps := by
  induction ps with
  | nil => intro k c hc; simp [mkConns] at hc
  | cons p rest ih =>
    intro k c hc
    show _ ∧ _ ∧ c.stars ∈ p :: rest
    unfold mkConns at hc
    by_cases hcoin : r k < 7 / 20
    · rw [if_pos hcoin] at hc
      rcases List.mem_cons.1 hc with h | h
      · subst h; exact ⟨rfl, rfl, List.mem_cons_self _ _⟩
      · rcases ih (k + 1) c h with ⟨h1, h2, h3⟩
        exact ⟨h1, h2, List.mem_cons_of_mem _ h3⟩
    · rw [if_neg hcoin] at hc
      rcases ih (k + 1) c hc with ⟨h1, h2, h3⟩
      exact ⟨h1, h2, List.mem_cons_of_mem _ h3⟩

theorem pairList_mem (n : ℕ) (p : ℕ × ℕ) (hp : p ∈ pairList n) :
    p.1 < p.2 ∧ p.2 < n := by
  unfold pairList at hp
  rcases List.mem_flatMap.1 hp with ⟨i, hi, hmap⟩
  rcases List.mem_map.1 hmap with ⟨j, hj, rfl⟩
  rw [List.mem_range] at hi
  rw [List.mem_range'_1] at hj
  exact ⟨by omega, by omega⟩

theorem reset_eq (g : StarGroup) (r : RandSource) (k : ℕ) :
    StarGroup.reset g r k =
      ({ id := g.id
         angle := uniformVal 0 (2 * mathPi) (r k)
         speed := BASE_SPEED
         distance := uniformVal 0 200 (r (k + 1))
         stars := (mkStars r (k + 2) STARS_PER_GROUP).1
         connections := (mkConns r (mkStars r (k + 2) STARS_PER_GROUP).2
           (pairList (mkStars r (k + 2) STARS_PER_GROUP).1.length)).1 },
       (mkConns r (mkStars r (k + 2) STARS_PER_GROUP).2
         (pairList (mkStars r (k + 2) STARS_PER_GROUP).1.length)).2) := rfl

theorem pairList7_len : (pairList STARS_PER_GROUP).length = 21 := by decide

theorem reset_snd (g : StarGroup) (r : RandSource) (k : ℕ) :
    (StarGroup.reset g r k).2 = k + 44 := by
  rw [reset_eq]
  show (mkConns r _ _).2 = _
  rw [mkConns_snd, mkStars_snd, mkStars_len, pairList7_len]
  show k + 2 + 3 * 7 + 21 = k + 44
  omega

theorem update_out (cosf sinf : ℚ → ℚ) (g : StarGroup) (t e : ℚ) (r : RandSource) (k : ℕ)
    (h : outOfBounds (centerX cosf (advance g)) (centerY sinf (advance g))) :
    StarGroup.update cosf sinf g t e r k = StarGroup.reset (advance g) r k := by
  unfold StarGroup.update
  rw [if_pos h]

theorem update_in (cosf sinf : ℚ → ℚ) (g : StarGroup) (t e : ℚ) (r : RandSource) (k : ℕ)
    (h : ¬ outOfBounds (centerX cosf (advance g)) (centerY sinf (advance g))) :
    StarGroup.update cosf sinf g t e r k =
      ({ advance g with
          connections := (advance g).connections.map (connStep (pyInt (t / BEAT_DURATION))) }, k) := by
  unfold StarGroup.update
  rw [if_neg h]

theorem uniformVal_mem (a b x : ℚ) (hab : a < b) (h0 : 0 ≤ x) (h1 : x < 1) :
    a ≤ uniformVal a b x ∧ uniformVal a b x < b := by
  unfold uniformVal
  constructor
  · nlinarith
  · nlinarith

theorem mkStars_mem (r : RandSource) (hr : ∀ m, 0 ≤ r m ∧ r m < 1) (n : ℕ) :
    ∀ k s, s ∈ (mkStars r k n).1 →
      (-1 ≤ s.angle_offset ∧ s.angle_offset < 1) ∧
      (1 ≤ s.dist_offset ∧ s.dist_offset < 2) ∧
      (0 ≤ s.pulse_phase ∧ s.pulse_phase < 2 * mathPi) := by
  induction n with
  | zero => intro k s hs; simp [mkStars] at hs
  | succ n ih =>
    intro k s hs
    have hs' : s = ({ angle_offset := uniformVal (-1) 1 (r k)
                      dist_offset := uniformVal 1 2 (r (k + 1))
                      pulse_phase := uniformVal 0 (2 * mathPi) (r (k + 2)) } : Star)
        ∨ s ∈ (mkStars r (k + 3) n).1 := List.mem_cons.1 hs
    rcases hs' with h | h
    · subst h
      exact ⟨uniformVal_mem (-1) 1 (r k) (by norm_num) (hr k).1 (hr k).2,
             uniformVal_mem 1 2 (r (k + 1)) (by norm_num) (hr (k + 1)).1 (hr (k + 1)).2,
             uniformVal_mem 0 (2 * mathPi) (r (k + 2)) (by norm_num [mathPi])
               (hr (k + 2)).1 (hr (k + 2)).2⟩
    · exact ih (k + 3) s h

theorem reset_angle (g : StarGroup) (r : RandSource) (k : ℕ) :
    (StarGroup.reset g r k).1.angle = uniformVal 0 (2 * mathPi) (r k) := rfl

theorem reset_distance (g : StarGroup) (r : RandSource) (k : ℕ) :
    (StarGroup.reset g r k).1.distance = uniformVal 0 200 (r (k + 1)) := rfl

theorem reset_speed (g : StarGroup) (r : RandSource) (k : ℕ) :
    (StarGroup.reset g r k).1.speed = BASE_SPEED := rfl

theorem reset_stars (g : StarGroup) (r : RandSource) (k : ℕ) :
    (StarGroup.reset g r k).1.stars = (mkStars r (k + 2) STARS_PER_GROUP).1 := rfl

theorem reset_connections (g : StarGroup) (r : RandSource) (k : ℕ) :
    (StarGroup.reset g r k).1.connections =
      (mkConns r (mkStars r (k + 2) STARS_PER_GROUP).2
        (pairList (mkStars r (k + 2) STARS_PER_GROUP).1.length)).1 := rfl

theorem reset_stars_len (g : StarGroup) (r : RandSource) (k : ℕ) :
    (StarGroup.reset g r k).1.stars.length = STARS_PER_GROUP := by
  rw [reset_stars, mkStars_len]

theorem reset_conn_mem (g : StarGroup) (r : RandSource) (k : ℕ) :
    ∀ c ∈ (StarGroup.reset g r k).1.connections,
      c.alpha = 0 ∧ c.active = false ∧
      c.stars ∈ pairList (mkStars r (k + 2) STARS_PER_GROUP).1.length := by
  rw [reset_connections]
  exact mkConns_mem r _ _

theorem alpha_change_pos : (0 : ℚ) < alpha_change := by
  norm_num [alpha_change, BPM, FPS]

theorem connBeat_stars (b : ℤ) (c : Connection) : (connBeat b c).stars = c.stars := by
  unfold connBeat
  split_ifs <;> rfl

theorem connRamp_stars (c : Connection) : (connRamp c).stars = c.stars := by
  unfold connRamp
  split_ifs <;> rfl

theorem connStep_stars (b : ℤ) (c : Connection) : (connStep b c).stars = c.stars := by
  unfold connStep
  rw [connRamp_stars, connBeat_stars]

theorem connBeat_alpha (b : ℤ) (c : Connection) :
    (connBeat b c).alpha = 0 ∨ (connBeat b c).alpha = c.alpha := by
  unfold connBeat
  split_ifs <;> simp

theorem connRamp_alpha_bounds (c : Connection) (h0 : 0 ≤ c.alpha) (h255 : c.alpha ≤ 255) :
    0 ≤ (connRamp c).alpha ∧ (connRamp c).alpha ≤ 255 := by
  have hpos := alpha_change_pos
  unfold connRamp
  split_ifs
  · constructor
    · apply le_min (by norm_num)
      linarith
    · exact min_le_left _ _
  · constructor
    · exact le_max_left _ _
    · apply max_le (by norm_num)
      linarith

theorem connStep_alpha_bounds (b : ℤ) (c : Connection) (h0 : 0 ≤ c.alpha)
    (h255 : c.alpha ≤ 255) :
    0 ≤ (connStep b c).alpha ∧ (connStep b c).alpha ≤ 255 := by
  unfold connStep
  rcases connBeat_alpha b c with h | h
  · exact connRamp_alpha_bounds _ (by rw [h]) (by rw [h]; norm_num)
  · exact connRamp_alpha_bounds _ (by rw [h]; exact h0) (by rw [h]; exact h255)

theorem alphaInv_reset (g : StarGroup) (r : RandSource) (k : ℕ) :
    alphaInv (StarGroup.reset g r k).1 := by
  intro c hc
  rcases reset_conn_mem g r k c hc with ⟨h0, _, _⟩
  rw [h0]
  norm_num

theorem alphaInv_update (cosf sinf : ℚ → ℚ) (g : StarGroup) (t e : ℚ)
    (r : RandSource) (k : ℕ) (h : alphaInv g) :
    alphaInv (StarGroup.update cosf sinf g t e r k).1 := by
  by_cases hb : outOfBounds (centerX cosf (advance g)) (centerY sinf (advance g))
  · rw [update_out cosf sinf g t e r k hb]
    exact alphaInv_reset _ _ _
  · rw [update_in cosf sinf g t e r k hb]
    intro c hc
    have hc' : c ∈ g.connections.map (connStep (pyInt (t / BEAT_DURATION))) := hc
    rcases List.mem_map.1 hc' with ⟨c0, hc0, rfl⟩
    exact connStep_alpha_bounds _ c0 (h c0 hc0).1 (h c0 hc0).2

theorem alphaInv_runOps (cosf sinf : ℚ → ℚ) (r : RandSource) (ops : List Op) :
    ∀ s : StarGroup × ℕ, alphaInv s.1 → alphaInv (runOps cosf sinf r s ops).1 := by
  induction ops with
  | nil => intro s h; exact h
  | cons op ops ih =>
    intro s h
    apply ih
    cases op with
    | update t e => exact alphaInv_update cosf sinf s.1 t e r s.2 h
    | reset => exact alphaInv_reset s.1 r s.2

theorem connInv_reset (g : StarGroup) (r : RandSource) (k : ℕ) :
    connInv (StarGroup.reset g r k).1 := by
  intro c hc
  rcases reset_conn_mem g r k c hc with ⟨_, _, hp⟩
  have := pairList_mem _ _ hp
  rw [reset_stars_len, ← mkStars_len r STARS_PER_GROUP (k + 2)]
  exact this

theorem connInv_update (cosf sinf : ℚ → ℚ) (g : StarGroup) (t e : ℚ)
    (r : RandSource) (k : ℕ) (h : connInv g) :
    connInv (StarGroup.update cosf sinf g t e r k).1 := by
  by_cases hb : outOfBounds (centerX cosf (advance g)) (centerY sinf (advance g))
  · rw [update_out cosf sinf g t e r k hb]
    exact connInv_reset _ _ _
  · rw [update_in cosf sinf g t e r k hb]
    intro c hc
    have hc' : c ∈ g.connections.map (connStep (pyInt (t / BEAT_DURATION))) := hc
    rcases List.mem_map.1 hc' with ⟨c0, hc0, rfl⟩
    rw [connStep_stars]
    exact h c0 hc0

theorem connInv_runOps (cosf sinf : ℚ → ℚ) (r : RandSource) (ops : List Op) :
    ∀ s : StarGroup × ℕ, connInv s.1 → connInv (runOps cosf sinf r s ops).1 := by
  induction ops with
  | nil => intro s h; exact h
  | cons op ops ih =>
    intro s h
    apply ih
    cases op with
    | update t e => exact connInv_update cosf sinf s.1 t e r s.2 h
    | reset => exact connInv_reset s.1 r s.2

theorem min_add_min (x d : ℚ) (hd : 0 ≤ d) :
    min 255 (min 255 x + d) = min 255 (x + d) := by
  rcases le_total x 255 with h | h
  · rw [min_eq_right h]
  · rw [min_eq_left h, min_eq_left (by linarith), min_eq_left (by linarith)]

theorem connStep0_closed (n : ℕ) :
    (connStep 0)^[n + 1] ⟨(0, 1), 0, false⟩ =
      ⟨(0, 1), min 255 ((n + 1 : ℕ) * alpha_change), true⟩ := by
  induction n with
  | zero =>
    rw [Function.iterate_one]
    unfold connStep connBeat connRamp
    norm_num
  | succ n ih =>
    rw [Function.iterate_succ_apply', ih]
    unfold connStep connBeat connRamp
    norm_num
    rw [min_add_min _ _ (le_of_lt alpha_change_pos)]
    congr 1
    ring

theorem pyInt_of_nonneg (q : ℚ) (h : 0 ≤ q) : pyInt q = ⌊q⌋ := by
  unfold pyInt
  rw [if_pos h]

theorem BEAT_DURATION_pos : (0 : ℚ) < BEAT_DURATION := by
  norm_num [BEAT_DURATION, BPM]

/-! ### Claim theorems -/

/-- C7: `StarGroup.update` is noninterferent in its energy argument: for
every group state, timestamp, random source and cursor, any two energy
values produce identical results — the energy argument influences
neither motion, nor reset, nor connection state. -/
theorem c7_energy_noninterference (cosf sinf : ℚ → ℚ) (g : StarGroup)
    (t e1 e2 : ℚ) (r : RandSource) (k : ℕ) :
    StarGroup.update cosf sinf g t e1 r k = StarGroup.update cosf sinf g t e2 r k := rfl

/-- C6: between resets the distance is non-decreasing across `update`
calls: the update sets
`speed = BASE_SPEED + (MAX_SPEED - BASE_SPEED) * (distance/SCREEN_DIAGONAL)^3`,
which is at least `BASE_SPEED ≥ 0` whenever `distance ≥ 0`, and adds that
speed to the distance. -/
theorem c6_distance_nondecreasing (g : StarGroup) (hd : 0 ≤ g.distance) :
    (advance g).speed
        = BASE_SPEED + (MAX_SPEED - BASE_SPEED) * (g.distance / SCREEN_DIAGONAL) ^ 3 ∧
    (0 : ℚ) ≤ BASE_SPEED ∧
    BASE_SPEED ≤ (advance g).speed ∧
    (advance g).distance = g.distance + (advance g).speed ∧
    g.distance ≤ (advance g).distance ∧
    (∀ (cosf sinf : ℚ → ℚ) (t e : ℚ) (r : RandSource) (k : ℕ),
      ¬ outOfBounds (centerX cosf (advance g)) (centerY sinf (advance g)) →
      g.distance ≤ (StarGroup.update cosf sinf g t e r k).1.distance) := by
  have hratio : (0 : ℚ) ≤ (g.distance / SCREEN_DIAGONAL) ^ 3 := by
    apply pow_nonneg
    apply div_nonneg hd
    norm_num [SCREEN_DIAGONAL]
  have hdiff : (0 : ℚ) ≤ MAX_SPEED - BASE_SPEED := by norm_num [MAX_SPEED, BASE_SPEED]
  have hprod := mul_nonneg hdiff hratio
  have hspeed : BASE_SPEED ≤ (advance g).speed := by
    show BASE_SPEED ≤ BASE_SPEED + (MAX_SPEED - BASE_SPEED) * (g.distance / SCREEN_DIAGONAL) ^ 3
    linarith [hprod]
  have hbase : (0 : ℚ) ≤ BASE_SPEED := by norm_num [BASE_SPEED]
  have hmono : g.distance ≤ (advance g).distance := by
    show g.distance ≤ g.distance + (BASE_SPEED + (MAX_SPEED - BASE_SPEED) * (g.distance / SCREEN_DIAGONAL) ^ 3)
    linarith [hprod, hbase]
  refine ⟨rfl, hbase, hspeed, rfl, hmono, ?_⟩
  intro cosf sinf t e r k h
  rw [update_in cosf sinf g t e r k h]
  exact hmono

/-- Witness for C6 at the concrete group
`⟨0, 0, 0, 0, [], []⟩` (distance `0`). -/
theorem c6_distance_nondecreasing_witness :
    (0 : ℚ) ≤ BASE_SPEED ∧
    (⟨0, 0, 0, 0, [], []⟩ : StarGroup).distance
      ≤ (advance ⟨0, 0, 0, 0, [], []⟩).distance :=
  ⟨(c6_distance_nondecreasing ⟨0, 0, 0, 0, [], []⟩ le_rfl).2.1,
   (c6_distance_nondecreasing ⟨0, 0, 0, 0, [], []⟩ le_rfl).2.2.2.2.1⟩

/-- C4: after advancing the distance, the center is canvas center plus
`(cos angle, sin angle) * distance`; `reset` is called — and the
connection logic skipped — exactly when that center lies outside the
canvas expanded by a 100-pixel margin; an in-bounds center never
triggers a reset. -/
theorem c4_reset_boundary (cosf sinf : ℚ → ℚ) (g : StarGroup) (t e : ℚ)
    (r : RandSource) (k : ℕ) :
    (centerX cosf (advance g) = WIDTH / 2 + cosf g.angle * (advance g).distance ∧
     centerY sinf (advance g) = HEIGHT / 2 + sinf g.angle * (advance g).distance) ∧
    (outOfBounds (centerX cosf (advance g)) (centerY sinf (advance g)) ↔
      ¬ inExpandedRect (centerX cosf (advance g)) (centerY sinf (advance g))) ∧
    (¬ inExpandedRect (centerX cosf (advance g)) (centerY sinf (advance g)) →
      StarGroup.update cosf sinf g t e r k = StarGroup.reset (advance g) r k) ∧
    (inExpandedRect (centerX cosf (advance g)) (centerY sinf (advance g)) →
      StarGroup.update cosf sinf g t e r k =
        ({ advance g with connections :=
            (advance g).connections.map (connStep (pyInt (t / BEAT_DURATION))) }, k) ∧
      StarGroup.update cosf sinf g t e r k ≠ StarGroup.reset (advance g) r k) := by
  have hiff : ∀ cx cy : ℚ, outOfBounds cx cy ↔ ¬ inExpandedRect cx cy := by
    intro cx cy
    unfold outOfBounds inExpandedRect
    rw [not_and_or, not_and_or, not_and_or, not_le, not_le, not_le, not_le]
  refine ⟨⟨rfl, rfl⟩, hiff _ _, ?_, ?_⟩
  · intro h
    exact update_out cosf sinf g t e r k ((hiff _ _).2 h)
  · intro h
    have hnot : ¬ outOfBounds (centerX cosf (advance g)) (centerY sinf (advance g)) := by
      intro hout
      exact (hiff _ _).1 hout h
    refine ⟨update_in cosf sinf g t e r k hnot, ?_⟩
    intro heq
    have h2 := congrArg Prod.snd heq
    rw [update_in cosf sinf g t e r k hnot, reset_snd] at h2
    simp at h2


/-- C5: after every call to `reset`, for any values drawn from the random
source: heading lies in `[0, 2π)`, distance in `[0, 200]`, speed equals
`BASE_SPEED`, the star list has exactly `STARS_PER_GROUP` stars with
angular offset in `[-1, 1]`, distance-scale in `[1, 2]` and pulse phase
in `[0, 2π)`, and every connection present has opacity `0` and
`active = false`. -/
theorem c5_reset_postcondition (g : StarGroup) (r : RandSource) (k : ℕ)
    (hr : ∀ m, 0 ≤ r m ∧ r m < 1) :
    (0 ≤ (StarGroup.reset g r k).1.angle ∧ (StarGroup.reset g r k).1.angle < 2 * mathPi) ∧
    (0 ≤ (StarGroup.reset g r k).1.distance ∧ (StarGroup.reset g r k).1.distance ≤ 200) ∧
    (StarGroup.reset g r k).1.speed = BASE_SPEED ∧
    (StarGroup.reset g r k).1.stars.length = STARS_PER_GROUP ∧
    (∀ s ∈ (StarGroup.reset g r k).1.stars,
      (-1 ≤ s.angle_offset ∧ s.angle_offset ≤ 1) ∧
      (1 ≤ s.dist_offset ∧ s.dist_offset ≤ 2) ∧
      (0 ≤ s.pulse_phase ∧ s.pulse_phase < 2 * mathPi)) ∧
    (∀ c ∈ (StarGroup.reset g r k).1.connections, c.alpha = 0 ∧ c.active = false) := by
  refine ⟨?_, ?_, reset_speed g r k, reset_stars_len g r k, ?_, ?_⟩
  · rw [reset_angle]
    exact uniformVal_mem 0 (2 * mathPi) (r k) (by norm_num [mathPi]) (hr k).1 (hr k).2
  · rw [reset_distance]
    have h := uniformVal_mem 0 200 (r (k + 1)) (by norm_num) (hr (k + 1)).1 (hr (k + 1)).2
    exact ⟨h.1, le_of_lt h.2⟩
  · intro s hs
    rw [reset_stars] at hs
    rcases mkStars_mem r hr STARS_PER_GROUP (k + 2) s hs with ⟨h1, h2, h3⟩
    exact ⟨⟨h1.1, le_of_lt h1.2⟩, ⟨h2.1, le_of_lt h2.2⟩, h3⟩
  · intro c hc
    rcases reset_conn_mem g r k c hc with ⟨h1, h2, _⟩
    exact ⟨h1, h2⟩

/-- Witness for C5 with the constant source `1/2` at cursor `0`. -/
theorem c5_reset_postcondition_witness :
    (StarGroup.reset ⟨0, 0, 0, 0, [], []⟩ (fun _ => 1 / 2) 0).1.speed = BASE_SPEED ∧
    (StarGroup.reset ⟨0, 0, 0, 0, [], []⟩ (fun _ => 1 / 2) 0).1.stars.length = STARS_PER_GROUP :=
  ⟨(c5_reset_postcondition ⟨0, 0, 0, 0, [], []⟩ (fun _ => 1 / 2) 0
      (fun m => by norm_num)).2.2.1,
   (c5_reset_postcondition ⟨0, 0, 0, 0, [], []⟩ (fun _ => 1 / 2) 0
      (fun m => by norm_num)).2.2.2.1⟩

/-- C10: `__init__` draws a heading and a distance and then calls
`reset()`, which overwrites both, so construction equals `reset` started
two draws later, establishes the `reset` postcondition, and consumes two
more random draws than a bare reset (46 versus 44). -/
theorem c10_init_consumes_two_extra (group_id : ℕ) (r : RandSource) (k : ℕ)
    (g : StarGroup) (hid : g.id = group_id) (hr : ∀ m, 0 ≤ r m ∧ r m < 1) :
    StarGroup.init group_id r k = StarGroup.reset g r (k + 2) ∧
    (StarGroup.init group_id r k).2 = k + 46 ∧
    (StarGroup.reset g r k).2 = k + 44 ∧
    (0 ≤ (StarGroup.init group_id r k).1.distance ∧
      (StarGroup.init group_id r k).1.distance ≤ 200) ∧
    (StarGroup.init group_id r k).1.speed = BASE_SPEED ∧
    (StarGroup.init group_id r k).1.stars.length = STARS_PER_GROUP ∧
    (∀ c ∈ (StarGroup.init group_id r k).1.connections,
      c.alpha = 0 ∧ c.active = false) := by
  have heq : StarGroup.init group_id r k = StarGroup.reset g r (k + 2) := by
    show StarGroup.reset _ r (k + 2) = StarGroup.reset g r (k + 2)
    rw [reset_eq, reset_eq, hid]
  refine ⟨heq, ?_, reset_snd g r k, ?_, ?_, ?_, ?_⟩
  · rw [heq, reset_snd]
  · rw [heq, reset_distance]
    have h := uniformVal_mem 0 200 (r (k + 2 + 1)) (by norm_num) (hr (k + 2 + 1)).1
      (hr (k + 2 + 1)).2
    exact ⟨h.1, le_of_lt h.2⟩
  · rw [heq, reset_speed]
  · rw [heq, reset_stars_len]
  · rw [heq]
    intro c hc
    rcases reset_conn_mem g r (k + 2) c hc with ⟨h1, h2, _⟩
    exact ⟨h1, h2⟩

/-- Witness for C10 at `group_id = 5`, the constant source `1/2` and a
group whose id is already `5`. -/
theorem c10_init_consumes_two_extra_witness :
    (StarGroup.init 5 (fun _ => 1 / 2) 0).2 = 0 + 46 ∧
    (StarGroup.reset ⟨5, 1, 2, 3, [], []⟩ (fun _ => 1 / 2) 0).2 = 0 + 44 :=
  ⟨(c10_init_consumes_two_extra 5 (fun _ => 1 / 2) 0 ⟨5, 1, 2, 3, [], []⟩ rfl
      (fun m => by norm_num)).2.1,
   (c10_init_consumes_two_extra 5 (fun _ => 1 / 2) 0 ⟨5, 1, 2, 3, [], []⟩ rfl
      (fun m => by norm_num)).2.2.1⟩

/-- C9: after any sequence of resets and updates starting from
construction, every connection's stored star index pair `(i, j)`
satisfies `i < j < stars.length`, so the renderer's indexing into the
star list is always in bounds. -/
theorem c9_connection_indices_in_bounds (group_id : ℕ) (r : RandSource) (k : ℕ)
    (cosf sinf : ℚ → ℚ) (ops : List Op) :
    connInv (runOps cosf sinf r (StarGroup.init group_id r k) ops).1 := by
  apply connInv_runOps
  show connInv (StarGroup.reset _ r (k + 2)).1
  exact connInv_reset _ _ _

/-- Witness for C9 at concrete inputs. -/
theorem c9_connection_indices_in_bounds_witness :
    connInv (runOps (fun _ => 0) (fun _ => 0) (fun _ => 1 / 2)
      (StarGroup.init 0 (fun _ => 1 / 2) 0) []).1 :=
  c9_connection_indices_in_bounds 0 (fun _ => 1 / 2) 0 (fun _ => 0) (fun _ => 0) []

/-- C3: every connection's opacity stays in `[0, 255]` under any sequence
of updates and resets: it starts at `0` at creation or activation, moves
by exactly `255 * BPM / (60 * FPS)` per update — up while active, down
while inactive — clamped to `[0, 255]`. -/
theorem c3_opacity_clamped (cosf sinf : ℚ → ℚ) (r : RandSource) (g : StarGroup)
    (k : ℕ) (ops : List Op) (hg : alphaInv g) :
    alphaInv (runOps cosf sinf r (g, k) ops).1 ∧
    alpha_change = 255 * BPM / (60 * FPS) ∧
    (∀ (g' : StarGroup) (k' : ℕ), ∀ c ∈ (StarGroup.reset g' r k').1.connections,
      c.alpha = 0) ∧
    (∀ (b : ℤ) (c : Connection), b % 2 = 0 → c.active = false →
      (connBeat b c).alpha = 0) ∧
    (∀ c : Connection, c.active = true →
      (connRamp c).alpha = min 255 (c.alpha + alpha_change)) ∧
    (∀ c : Connection, c.active = false →
      (connRamp c).alpha = max 0 (c.alpha - alpha_change)) := by
  refine ⟨alphaInv_runOps cosf sinf r ops (g, k) hg, rfl, ?_, ?_, ?_, ?_⟩
  · intro g' k' c hc
    exact (reset_conn_mem g' r k' c hc).1
  · intro b c hb hact
    unfold connBeat
    rw [if_pos ⟨hb, by simp [hact]⟩]
  · intro c hact
    unfold connRamp
    rw [if_pos hact]
  · intro c hact
    unfold connRamp
    rw [if_neg (by simp [hact])]

/-- Witness for C3: a singleton connection list with opacity `100`. -/
theorem c3_opacity_clamped_witness :
    alphaInv (runOps (fun _ => 0) (fun _ => 0) (fun _ => 1 / 2)
      (⟨0, 0, 0, 0, [], [⟨(0, 1), 100, true⟩]⟩, 0) []).1 :=
  (c3_opacity_clamped (fun _ => 0) (fun _ => 0) (fun _ => 1 / 2)
    ⟨0, 0, 0, 0, [], [⟨(0, 1), 100, true⟩]⟩ 0 []
    (by
      intro c hc
      simp only [List.mem_singleton] at hc
      subst hc
      show (0 : ℚ) ≤ 100 ∧ (100 : ℚ) ≤ 255
      norm_num)).1

/-- C1 (amended): for `t ≥ 0`, `D > 0` and a track whose sample list has
length `N`, the energy lookup of `create_frame` selects exactly the
clamped sample index `clamp(floor(t*N/D), 0, N-1)` and never fails, and
for `N = 0` it returns energy `0` for every timestamp.  (The original
unrestricted claim fails for `t < 0`: the computed index is not clamped
below, can be negative, and Python then indexes from the end of the
list — see the counterexample.) -/
theorem c1_energy_lookup (t D : ℚ) (ve : List ℚ) (ht : 0 ≤ t) (hD : 0 < D) :
    currentEnergy t ve ve.length D =
      some (ve.getD (specClampIdx t ve.length D).toNat 0) ∧
    (∀ (t2 D2 : ℚ) (ve2 : List ℚ), currentEnergy t2 ve2 0 D2 = some 0) := by
  constructor
  · cases ve with
    | nil =>
      show some 0 = some (List.getD [] _ 0)
      rw [List.getD_nil]
    | cons a l =>
      have hNpos : 0 < (a :: l).length := by simp
      have hx : (0 : ℚ) ≤ t * ((a :: l).length : ℕ) / D := by
        apply div_nonneg _ (le_of_lt hD)
        exact mul_nonneg ht (by positivity)
      have hfl : 0 ≤ ⌊t * (((a :: l).length : ℕ) : ℚ) / D⌋ := Int.floor_nonneg.2 hx
      unfold currentEnergy
      rw [if_pos hNpos, if_neg (by simp), pyInt_of_nonneg _ hx]
      have hidx0 : 0 ≤ min ((((a :: l).length : ℕ) : ℤ) - 1)
          ⌊t * (((a :: l).length : ℕ) : ℚ) / D⌋ := by
        apply le_min _ hfl
        omega
      have hspec : specClampIdx t (a :: l).length D =
          min ((((a :: l).length : ℕ) : ℤ) - 1)
            ⌊t * (((a :: l).length : ℕ) : ℚ) / D⌋ := max_eq_right hidx0
      rw [hspec]
      have hle : min ((((a :: l).length : ℕ) : ℤ) - 1)
          ⌊t * (((a :: l).length : ℕ) : ℚ) / D⌋ ≤ (((a :: l).length : ℕ) : ℤ) - 1 :=
        min_le_left _ _
      have hlt : (min ((((a :: l).length : ℕ) : ℤ) - 1)
          ⌊t * (((a :: l).length : ℕ) : ℚ) / D⌋).toNat < (a :: l).length := by
        omega
      unfold pyListGet
      rw [if_pos hidx0, List.getElem?_eq_getElem hlt, List.getD_eq_getElem _ _ hlt]
  · intro t2 D2 ve2
    rfl

/-- Witness for C1 at `t = 3`, `D = 2`, two samples. -/
theorem c1_energy_lookup_witness :
    currentEnergy 3 [1 / 2, 3 / 4] ([(1 : ℚ) / 2, 3 / 4].length) 2 =
      some ([(1 : ℚ) / 2, 3 / 4].getD
        (specClampIdx 3 ([(1 : ℚ) / 2, 3 / 4].length) 2).toNat 0) ∧
    currentEnergy (-7) [1 / 2, 3 / 4] 0 5 = some 0 :=
  ⟨(c1_energy_lookup 3 2 [1 / 2, 3 / 4] (by norm_num) (by norm_num)).1,
   (c1_energy_lookup 3 2 [1 / 2, 3 / 4] (by norm_num) (by norm_num)).2 (-7) 5 [1 / 2, 3 / 4]⟩

/-- Counterexample to C1 as stated: at `t = -1`, `N = 2`, `D = 2` the
claimed clamped index is `0` — the first sample, energy `0` — but the
code computes index `min(1, int(-1)) = -1`, which Python resolves to the
LAST sample, energy `1`. -/
theorem c1_energy_lookup_counterexample :
    currentEnergy (-1) [0, 1] 2 2 = some 1 ∧
    specClampIdx (-1) 2 2 = 0 ∧
    currentEnergy (-1) [0, 1] 2 2 ≠
      some ([(0 : ℚ), 1].getD (specClampIdx (-1) 2 2).toNat 0) := by
  have harg : (-1 : ℚ) * ((2 : ℕ) : ℚ) / 2 = -1 := by push_cast; norm_num
  have hfl : ⌊(-1 : ℚ)⌋ = -1 := by rw [Int.floor_eq_iff]; norm_num
  have hcl : ⌈(-1 : ℚ)⌉ = -1 := by rw [Int.ceil_eq_iff]; norm_num
  have hpy : pyInt ((-1 : ℚ) * ((2 : ℕ) : ℚ) / 2) = -1 := by
    rw [harg]
    unfold pyInt
    rw [if_neg (by norm_num)]
    exact hcl
  have hget : pyListGet [(0 : ℚ), 1] (-1) = some 1 := by
    unfold pyListGet
    rw [if_neg (by decide), if_pos (by decide)]
    rfl
  have hcur : currentEnergy (-1) [0, 1] 2 2 = some 1 := by
    unfold currentEnergy
    rw [if_pos (by norm_num : (0 : ℕ) < 2), if_neg (by simp), hpy]
    rw [show min (((2 : ℕ) : ℤ) - 1) (-1 : ℤ) = -1 from by decide]
    exact hget
  have hspec : specClampIdx (-1) 2 2 = 0 := by
    unfold specClampIdx
    rw [harg, hfl]
    decide
  refine ⟨hcur, hspec, ?_⟩
  intro h
  rw [hcur, hspec] at h
  have h2 := Option.some.inj h
  simp at h2

/-- C2 (amended): for a `StarGroup` update at a timestamp `t ≥ 0` that
does not trigger a reset, with `beat_index = ⌊t / BEAT_DURATION⌋` (for
`t ≥ 0` the code's `int()` truncation agrees with the floor): an even
beat index makes every connection active, restarting the opacity of
previously inactive ones at `0`; an odd beat index makes every
connection inactive (the connection stays in the list); the decision
depends only on `beat_index % 2` and is the same function applied to
every connection of every group updated at the same `t`. -/
theorem c2_beat_toggle (t : ℚ) (ht : 0 ≤ t) :
    pyInt (t / BEAT_DURATION) = ⌊t / BEAT_DURATION⌋ ∧
    (∀ c : Connection, ⌊t / BEAT_DURATION⌋ % 2 = 0 →
      (connBeat ⌊t / BEAT_DURATION⌋ c).active = true ∧
      (c.active = false → (connBeat ⌊t / BEAT_DURATION⌋ c).alpha = 0)) ∧
    (∀ c : Connection, ⌊t / BEAT_DURATION⌋ % 2 = 1 →
      (connBeat ⌊t / BEAT_DURATION⌋ c).active = false) ∧
    (∀ b b' : ℤ, b % 2 = b' % 2 → connStep b = connStep b') ∧
    (∀ (cosf sinf : ℚ → ℚ) (g : StarGroup) (e : ℚ) (r : RandSource) (k : ℕ),
      ¬ outOfBounds (centerX cosf (advance g)) (centerY sinf (advance g)) →
      (StarGroup.update cosf sinf g t e r k).1.connections =
        g.connections.map (connStep ⌊t / BEAT_DURATION⌋)) := by
  have hpy : pyInt (t / BEAT_DURATION) = ⌊t / BEAT_DURATION⌋ :=
    pyInt_of_nonneg _ (div_nonneg ht (le_of_lt BEAT_DURATION_pos))
  refine ⟨hpy, ?_, ?_, ?_, ?_⟩
  · intro c hb
    by_cases hact : c.active = true
    · constructor
      · unfold connBeat
        rw [if_neg (by simp [hact]), if_neg (by intro h; omega)]
        exact hact
      · intro hfalse
        rw [hact] at hfalse
        cases hfalse
    · simp only [Bool.not_eq_true] at hact
      unfold connBeat
      rw [if_pos ⟨hb, by simp [hact]⟩]
      exact ⟨rfl, fun _ => rfl⟩
  · intro c hb
    by_cases hact : c.active = true
    · unfold connBeat
      rw [if_neg (by simp [hact]), if_pos ⟨hb, hact⟩]
    · simp only [Bool.not_eq_true] at hact
      unfold connBeat
      rw [if_neg (by intro h; omega), if_neg (by simp [hact])]
      exact hact
  · intro b b' hbb
    funext c
    unfold connStep connBeat
    rw [hbb]
  · intro cosf sinf g e r k h
    rw [update_in cosf sinf g t e r k h]
    show (advance g).connections.map (connStep (pyInt (t / BEAT_DURATION))) =
      g.connections.map (connStep ⌊t / BEAT_DURATION⌋)
    rw [hpy]
    rfl

/-- Witness for C2 at `t = 0` (beat index `0`, even). -/
theorem c2_beat_toggle_witness :
    pyInt (0 / BEAT_DURATION) = ⌊(0 : ℚ) / BEAT_DURATION⌋ ∧
    (connBeat ⌊(0 : ℚ) / BEAT_DURATION⌋ ⟨(0, 1), 0, false⟩).active = true :=
  ⟨(c2_beat_toggle 0 le_rfl).1,
   ((c2_beat_toggle 0 le_rfl).2.1 ⟨(0, 1), 0, false⟩ (by norm_num)).1⟩

/-- Counterexample to C2 as stated: at `t = -6/17` the floor-based beat
index `⌊t / BEAT_DURATION⌋ = -1` is odd — so the claim predicts an
inactive connection stays inactive — yet the code's update (which
truncates `t / BEAT_DURATION` toward zero to `0`, an even beat)
activates it. -/
theorem c2_beat_toggle_counterexample :
    ⌊(-6 / 17 : ℚ) / BEAT_DURATION⌋ % 2 = 1 ∧
    ((StarGroup.update (fun _ => 0) (fun _ => 0)
        ⟨0, 0, 0, 0, [], [⟨(0, 1), 0, false⟩]⟩
        (-6 / 17) 0 (fun _ => 0) 0).1.connections.map Connection.active) = [true] := by
  have hdiv : (-6 / 17 : ℚ) / BEAT_DURATION = -1 / 2 := by
    norm_num [BEAT_DURATION, BPM]
  have hfloor : ⌊(-1 / 2 : ℚ)⌋ = -1 := by
    rw [Int.floor_eq_iff]
    norm_num
  have hceil : ⌈(-1 / 2 : ℚ)⌉ = 0 := by
    rw [Int.ceil_eq_iff]
    norm_num
  have hpy : pyInt ((-6 / 17 : ℚ) / BEAT_DURATION) = 0 := by
    rw [hdiv]
    unfold pyInt
    rw [if_neg (by norm_num)]
    exact hceil
  constructor
  · rw [hdiv, hfloor]
    decide
  · have hnot : ¬ outOfBounds
        (centerX (fun _ => 0) (advance ⟨0, 0, 0, 0, [], [⟨(0, 1), 0, false⟩]⟩))
        (centerY (fun _ => 0) (advance ⟨0, 0, 0, 0, [], [⟨(0, 1), 0, false⟩]⟩)) := by
      simp only [outOfBounds, centerX, centerY, advance, WIDTH, HEIGHT]
      norm_num
    rw [update_in _ _ _ _ _ _ _ hnot, hpy]
    show ([⟨(0, 1), 0, false⟩] : List Connection).map
      (fun c => Connection.active (connStep 0 c)) = [true]
    simp [connStep, connBeat, connRamp]

/-- C8: with `BPM = 85` and `FPS = 30` the per-update opacity delta is
`255 * 85 / 1800` (about 12.04), `ceil(255 / delta) = 22`, and a
connection activated with opacity `0` that stays active (beat index `0`,
even) reaches opacity `255` at update 22 and not before. -/
theorem c8_full_opacity_after_22 :
    alpha_change = 255 * 85 / 1800 ∧
    ⌈(255 : ℚ) / alpha_change⌉ = 22 ∧
    ((connStep 0)^[22] ⟨(0, 1), 0, false⟩).alpha = 255 ∧
    (∀ n : ℕ, n < 22 → ((connStep 0)^[n] ⟨(0, 1), 0, false⟩).alpha < 255) := by
  have hd : alpha_change = 289 / 24 := by norm_num [alpha_change, BPM, FPS]
  refine ⟨by norm_num [alpha_change, BPM, FPS], ?_, ?_, ?_⟩
  · rw [hd, Int.ceil_eq_iff]
    norm_num
  · have h22 : (connStep 0)^[22] ⟨(0, 1), 0, false⟩ =
        ⟨(0, 1), min 255 ((21 + 1 : ℕ) * alpha_change), true⟩ := connStep0_closed 21
    rw [h22]
    show min 255 ((21 + 1 : ℕ) * alpha_change) = 255
    rw [min_eq_left]
    rw [hd]
    push_cast
    norm_num
  · intro n hn
    cases n with
    | zero =>
      show (0 : ℚ) < 255
      norm_num
    | succ m =>
      rw [connStep0_closed m]
      show min 255 ((m + 1 : ℕ) * alpha_change) < 255
      have hm : ((m + 1 : ℕ) : ℚ) ≤ 21 := by
        exact_mod_cast (by omega : (m + 1 : ℕ) ≤ 21)
      have hc0 : (0 : ℚ) ≤ ((m + 1 : ℕ) : ℚ) := Nat.cast_nonneg _
      have hlt : ((m + 1 : ℕ) : ℚ) * alpha_change < 255 := by
        rw [hd]
        nlinarith [hm, hc0]
      exact lt_of_le_of_lt (min_le_right _ _) hlt

/-- Witness for C8: opacity is still below `255` after 21 updates. -/
theorem c8_full_opacity_after_22_witness :
    ((connStep 0)^[21] ⟨(0, 1), 0, false⟩).alpha < 255 :=
  c8_full_opacity_after_22.2.2.2 21 (by norm_num)

/-- Witness for C4 at a concrete in-bounds input: the zero-heading group
at the center with `cos = sin = 0` maps into the non-reset branch. -/
theorem c4_reset_boundary_witness :
    StarGroup.update (fun _ => 0) (fun _ => 0) ⟨0, 0, 0, 0, [], []⟩ 0 0 (fun _ => 0) 0 =
      ({ advance ⟨0, 0, 0, 0, [], []⟩ with connections :=
          (advance ⟨0, 0, 0, 0, [], []⟩).connections.map (connStep (pyInt (0 / BEAT_DURATION))) }, 0) :=
  ((c4_reset_boundary (fun _ => 0) (fun _ => 0) ⟨0, 0, 0, 0, [], []⟩ 0 0 (fun _ => 0) 0).2.2.2
    (by norm_num [inExpandedRect, centerX, centerY, advance, WIDTH, HEIGHT])).1

end StarViz
